import Mathlib

/-!
# Verification of the `openapi-include` merge engine (`src/merger.js`)

This development shallowly embeds the merge engine of the repository:
the `Merger` class of `src/merger.js` (the two-pass `merge` entry point,
`mergeRefs`, `handleRef`, `handleInclude`, `handleDiscriminator`, and
`getKeyPattern`), together with models of the external collaborator modules
that are not part of the provided sources (`ref.js`, `components.js`,
`util.js`, `yaml.js`, `http.js`); those models are written from the spec and
are marked `Modelled from the spec:` in their doc comments.

Modelling conventions:
* YAML/JSON trees are `Node`: ordered maps (association lists in JS object
  insertion order), JS arrays (element list plus the extra string-keyed
  properties a JS array can carry), strings, and `null`.  Documents whose
  object keys are integer-like strings (which JS enumerates first) are
  outside the model's scope; no claim exercises them.
* Asynchronous awaits are erased: the design is single-threaded and each
  resolution is awaited to completion before the traversal continues, so the
  embedding is a sequential state-passing interpreter.
* The mutually recursive traversal is driven by a fuel parameter so that all
  definitions are structurally recursive and kernel-evaluable.
* I/O (reading a YAML file, downloading a URL, expanding a glob) is an
  explicit environment of pure functions.
-/

namespace OpenapiInclude

/-- A YAML/JSON tree, as manipulated by `merger.js`.  `arr` carries both the
JS array elements and the extra non-index string properties a JS array can
acquire through assignment (`ret[key] = v` after `ret` was turned into an
array by an inclusion). `nullN` is JS `null`/`undefined` and also stands for
the hole `delete` leaves in an array. -/
inductive Node where
  | str : String → Node
  | nullN : Node
  | obj : List (String × Node) → Node
  | arr : List Node → List (String × Node) → Node

/-! ## Character-list string utilities

All string inspection is routed through `List Char` so every definition is
structurally recursive and reduces in the kernel. -/

/-- `l` begins with `p`. -/
def listStartsWith : List Char → List Char → Bool
  | _, [] => true
  | [], _ :: _ => false
  | c :: cs, p :: ps => c == p && listStartsWith cs ps

/-- `l` ends with `p`. -/
def listEndsWith (l p : List Char) : Bool :=
  listStartsWith l.reverse p.reverse

def strStartsWith (s p : String) : Bool := listStartsWith s.toList p.toList

def strEndsWith (s p : String) : Bool := listEndsWith s.toList p.toList

/-- Split a character list at the first occurrence of `c`: returns the part
before and the part from `c` on (including `c`), or `none` if absent. -/
def splitAtCharAux (c : Char) : List Char → Option (List Char × List Char)
  | [] => none
  | x :: xs =>
    if x == c then some ([], x :: xs)
    else match splitAtCharAux c xs with
      | none => none
      | some (a, b) => some (x :: a, b)

/-- Split a string `s` into the part before the first `#` and the part from
`#` on; if `s` has no `#`, the second component is empty. -/
def splitHash (s : String) : String × String :=
  match splitAtCharAux '#' s.toList with
  | none => (s, "")
  | some (a, b) => (⟨a⟩, ⟨b⟩)

/-- Split a character list on a separator character (no empty-collapse). -/
def splitCharList (sep : Char) : List Char → List (List Char)
  | [] => [[]]
  | c :: cs =>
    let rest := splitCharList sep cs
    if c == sep then [] :: rest
    else match rest with
      | [] => [[c]]
      | r :: rs => (c :: r) :: rs

/-- Split a string on a separator character. -/
def strSplit (s : String) (sep : Char) : List String :=
  (splitCharList sep s.toList).map fun l => ⟨l⟩

/-- The last element of a list, or a default. -/
def lastOr (d : String) : List String → String
  | [] => d
  | [x] => x
  | _ :: x :: xs => lastOr d (x :: xs)

/-- Model of `Path.dirname` / the directory part of a URL: everything before
the final `/` (the string itself if it has no `/`). -/
def dirname (s : String) : String :=
  let segs := strSplit s '/'
  match segs with
  | [] => s
  | [_] => s
  | _ => String.intercalate "/" (segs.dropLast)

/-- Model of `Path.join(dir, rel)` as used on already-normalised inputs:
plain concatenation with a `/` separator (no `..` normalisation; the claims
never exercise it). An absolute `rel` is returned unchanged. -/
def pathJoin (dir rel : String) : String :=
  if strStartsWith rel "/" then rel else dir ++ "/" ++ rel

/-- Model of `Url.resolve(base + "/", rel)` for the inputs the merger builds:
an absolute (scheme-qualified) `rel` wins, otherwise it is appended to the
base directory. -/
def urlResolve (baseDir rel : String) : String :=
  if strStartsWith rel "http://" || strStartsWith rel "https://" then rel
  else baseDir ++ rel

/-- The final `/`-separated segment of a string. -/
def lastSegment (s : String) : String := lastOr s (strSplit s '/')

/-- Model of `Path.basename`: final path segment. -/
def basename (s : String) : String := lastSegment s

/-- Drop the extension (the part from the last `.` of the basename on). -/
def fileStem (s : String) : String :=
  let b := basename s
  let parts := strSplit b '.'
  match parts with
  | [] => b
  | [_] => b
  | _ => String.intercalate "." parts.dropLast

/-- Model of `Path.extname`: the part of the basename from its last `.` on
(empty if none). -/
def extname (s : String) : String :=
  let b := basename s
  let parts := strSplit b '.'
  match parts with
  | [] => ""
  | [_] => ""
  | ps => "." ++ lastOr "" ps

/-- Model of `Path.relative(base, p)` for the case the merger exercises:
strips a leading `base ++ "/"`; otherwise returns `p` unchanged. -/
def pathRelative (base p : String) : String :=
  let pre := base ++ "/"
  if strStartsWith p pre then ⟨p.toList.drop pre.toList.length⟩ else p

/-! ## `parseUrl` (modelled from the spec)

`parseUrl` lives in the absent `util.js`.  Modelled from the spec:
`ReferenceParser.resolve` classifies a scheme-qualified string as remote, a
string beginning with the same-document marker `#` as same-document, and
decomposes target and internal pointer; `merger.js` reads the fields
`isHttp`, `isLocal`, `href`, `hrefWoHash` and `hash`. -/
structure ParsedUrl where
  href : String
  hrefWoHash : String
  hash : String
  isHttp : Bool
  isLocal : Bool

/-- Modelled from the spec: decompose a reference string (see `ParsedUrl`).
`hash` keeps its leading `#`; `hrefWoHash` is the part before it. -/
def parseUrl (s : String) : ParsedUrl :=
  let (wo, h) := splitHash s
  { href := s
    hrefWoHash := wo
    hash := h
    isHttp := strStartsWith s "http://" || strStartsWith s "https://"
    isLocal := strStartsWith s "#" }

/-! ## The inclusion-directive key pattern

`Merger.INCLUDE_PATTERN = /^\$include(#.*?)?(\/.*?\/)?$/` - an anchored
regular expression with two optional lazily-quantified groups.  Because the
pattern is anchored at both ends, group 2, when it participates, must consume
the whole remainder, so it participates exactly when the remainder is a
`/...../`-delimited block; group 1 (lazy) takes the shortest `#`-prefixed
block that leaves such a remainder (or an empty remainder). -/

/-- Does `l` have the shape `/ ... /` (length at least 2, starts and ends
with `/`)? This is what `(\/.*?\/)$` can consume. -/
def isSlashBlock (l : List Char) : Bool :=
  decide (2 ≤ l.length) && listStartsWith l ['/'] && listEndsWith l ['/']

/-- The remainder after group 1 must be empty or a slash block. -/
def groupTwoShape (l : List Char) : Bool :=
  l.isEmpty || isSlashBlock l

/-- Helper for the lazy group-1 search: `acc` is the group-1 text so far;
stop at the first point where the remainder satisfies `groupTwoShape`. -/
def lazyHashSplitAux (acc : List Char) : List Char → Option (List Char × List Char)
  | [] => if groupTwoShape [] then some (acc, []) else none
  | r :: rs =>
    if groupTwoShape (r :: rs) then some (acc, r :: rs)
    else lazyHashSplitAux (acc ++ [r]) rs

/-- Lazy search for group 1: the shortest prefix `#x` of `l` (scanning `x`
left to right) whose remainder satisfies `groupTwoShape`.  Returns the pair
(group 1 text, remainder). -/
def lazyHashSplit : List Char → Option (List Char × List Char)
  | [] => none
  | c :: cs =>
    if c == '#' then lazyHashSplitAux ['#'] cs else none

/-- Match of `Merger.INCLUDE_PATTERN` against a key.  Returns `none` when the
key does not match, otherwise `some (group1?, group2?)` where group 1 is the
`#…` fragment selector and group 2 the `/…/` key-filter block (both with
their delimiters, exactly as the JS capture groups). -/
def includeMatch (key : String) : Option (Option String × Option String) :=
  let l := key.toList
  let pre := "$include".toList
  if listStartsWith l pre then
    let rest := l.drop pre.length
    if rest.isEmpty then some (none, none)
    else if listStartsWith rest ['#'] then
      match lazyHashSplit rest with
      | none => none
      | some (g1, g2) =>
        some (some ⟨g1⟩, if g2.isEmpty then none else some ⟨g2⟩)
    else if isSlashBlock rest then
      some (none, some ⟨rest⟩)
    else none
  else none

/-- `getKeyPattern` (from `src/merger.js`): the text between the two slashes
of the key's filter block, or `none`.  JS returns
`pattern ? pattern.substr(1, pattern.length - 2) : null`; the block always
has length ≥ 2 so it is truthy whenever the group participated. -/
def getKeyPattern (key : String) : Option String :=
  match includeMatch key with
  | some (_, some p) => some ⟨(p.toList.drop 1).dropLast⟩
  | _ => none

/-! ## Node operations (JS object/array semantics) -/

/-- All characters are decimal digits. -/
def allDigits : List Char → Bool
  | [] => true
  | c :: cs => c.isDigit && allDigits cs

/-- Parse a digit list as a `Nat` (most significant first). -/
def digitsToNat : List Char → Nat → Nat
  | [], acc => acc
  | c :: cs, acc => digitsToNat cs (acc * 10 + (c.toNat - 48))

/-- A canonical JS array index string: nonempty, digits only, no leading
zero (except `"0"` itself).  `a["01"]` sets a property, `a["1"]` an element. -/
def canonIdx (key : String) : Option Nat :=
  match key.toList with
  | [] => none
  | c :: cs =>
    if allDigits (c :: cs) && (cs.isEmpty || c != '0') then
      some (digitsToNat (c :: cs) 0)
    else none

/-- JS `Number(key)` as used by `ret.splice(Number(key), 1)`: a digit string
parses, anything else gives `NaN`, which `splice` coerces to start `0`. -/
def jsNumIdx (key : String) : Nat :=
  if allDigits key.toList && !key.toList.isEmpty then digitsToNat key.toList 0 else 0

/-- Replace the value under `k` in place (JS keeps the key's position) or
append the pair if absent. -/
def setKeyList (kvs : List (String × Node)) (k : String) (v : Node) :
    List (String × Node) :=
  match kvs with
  | [] => [(k, v)]
  | (k0, v0) :: rest =>
    if k0 == k then (k0, v) :: rest else (k0, v0) :: setKeyList rest k v

/-- Write element `i` of a JS array, padding with holes (`nullN`) when `i`
is past the end. -/
def setIdx (es : List Node) (i : Nat) (v : Node) : List Node :=
  match es, i with
  | [], 0 => [v]
  | [], n + 1 => Node.nullN :: setIdx [] n v
  | _ :: rest, 0 => v :: rest
  | e :: rest, n + 1 => e :: setIdx rest n v

/-- `ret[key] = v` on a node, with JS semantics: map keys are
replaced-in-place/appended; on an array a canonical index key writes the
element, any other key writes a property; assigning into a scalar is a no-op
(`ret` is never a scalar in the merger). -/
def jsSetKey (n : Node) (key : String) (v : Node) : Node :=
  match n with
  | Node.obj kvs => Node.obj (setKeyList kvs key v)
  | Node.arr es ps =>
    match canonIdx key with
    | some i => Node.arr (setIdx es i v) ps
    | none => Node.arr es (setKeyList ps key v)
  | other => other

/-- Look a key up in an association list. -/
def lookupList (kvs : List (String × Node)) (k : String) : Option Node :=
  match kvs with
  | [] => none
  | (k0, v0) :: rest => if k0 == k then some v0 else lookupList rest k

/-- `n[key]` read. -/
def getKey (n : Node) (key : String) : Option Node :=
  match n with
  | Node.obj kvs => lookupList kvs key
  | Node.arr es ps =>
    match canonIdx key with
    | some i => es.get? i
    | none => lookupList ps key
  | _ => none

/-- Remove a key from an association list. -/
def removeKeyList (kvs : List (String × Node)) (k : String) :
    List (String × Node) :=
  match kvs with
  | [] => []
  | (k0, v0) :: rest =>
    if k0 == k then rest else (k0, v0) :: removeKeyList rest k

/-- `delete n[key]`: drops a map entry or an array property; deleting an
array element leaves a hole (length unchanged). -/
def delKey (n : Node) (key : String) : Node :=
  match n with
  | Node.obj kvs => Node.obj (removeKeyList kvs key)
  | Node.arr es ps =>
    match canonIdx key with
    | some i => Node.arr (setIdx es i Node.nullN) ps
    | none => Node.arr es (removeKeyList ps key)
  | other => other

def isArr : Node → Bool
  | Node.arr _ _ => true
  | _ => false

/-- `_.isObject`: maps and arrays. -/
def isObjLike : Node → Bool
  | Node.obj _ => true
  | Node.arr _ _ => true
  | _ => false

/-- `Object.keys(n).length` (our documents keep list keys distinct). -/
def jsKeysLen : Node → Nat
  | Node.obj kvs => kvs.length
  | Node.arr es ps => es.length + ps.length
  | _ => 0

/-- Render a `Nat` as its decimal string (fuel-driven so it reduces). -/
def natToStrAux : Nat → Nat → List Char
  | 0, _ => []
  | fuel + 1, n =>
    if n < 10 then [Char.ofNat (48 + n)]
    else natToStrAux fuel (n / 10) ++ [Char.ofNat (48 + n % 10)]

def natToStr (n : Nat) : String := ⟨natToStrAux (n + 1) n⟩

/-- Enumerate array elements as JS entries (index strings), elements before
properties, as `Object.entries` does. -/
def arrEntriesAux (i : Nat) : List Node → List (String × Node)
  | [] => []
  | e :: rest => (natToStr i, e) :: arrEntriesAux (i + 1) rest

/-- `Object.entries(n)`.  For strings JS would enumerate characters; the
merger never iterates a scalar (`_.isObject` guards it), so scalars give
`[]`. -/
def entriesOf (n : Node) : List (String × Node) :=
  match n with
  | Node.obj kvs => kvs
  | Node.arr es ps => arrEntriesAux 0 es ++ ps
  | _ => []

/-- `ret.concat(merged)`: a fresh array holding both element lists;
non-index properties of either operand are not copied (JS `concat` copies
elements only). -/
def jsConcat (a b : Node) : Node :=
  match a, b with
  | Node.arr ea _, Node.arr eb _ => Node.arr (ea ++ eb) []
  | Node.arr ea _, other => Node.arr (ea ++ [other]) []
  | other, _ => other

/-- Remove the element at index `i` (JS `splice(i, 1)`): properties stay. -/
def spliceOne (n : Node) (i : Nat) : Node :=
  match n with
  | Node.arr es ps => Node.arr (es.eraseIdx i) ps
  | other => other

/-- JS truthiness of a node (`if (mval)`): `""`, `null` are falsy. -/
def jsTruthy : Node → Bool
  | Node.str s => !s.toList.isEmpty
  | Node.nullN => false
  | _ => true

/-- The string payload of a node; the merger only ever feeds reference
strings to `parseUrl`, so non-strings (outside the model's scope) read as
the empty string. -/
def jsStr : Node → String
  | Node.str s => s
  | _ => ""

/-! ## `_.merge` (lodash deep merge)

Model of lodash `merge(dst, src)`: plain objects and arrays are merged
recursively (arrays index-wise), every other source value overrides the
destination by assignment.  Fuel-driven so it is structurally recursive. -/

def lmArrAux (rec : Node → Node → Node) : List Node → List Node → List Node
  | d, [] => d
  | [], s => s
  | dh :: dt, sh :: stl => rec dh sh :: lmArrAux rec dt stl

def lmAssign (rec : Node → Node → Node) (d : List (String × Node))
    (k : String) (v : Node) : List (String × Node) :=
  match lookupList d k with
  | some dv => setKeyList d k (rec dv v)
  | none => d ++ [(k, v)]

/-- `_.merge` with fuel (`0` fuel degenerates to assignment; all uses give
ample fuel). -/
def lmF : Nat → Node → Node → Node
  | 0, _, s => s
  | fuel + 1, Node.obj d, Node.obj s =>
    Node.obj (s.foldl (fun acc kv => lmAssign (lmF fuel) acc kv.1 kv.2) d)
  | fuel + 1, Node.arr de dp, Node.arr se sp =>
    Node.arr (lmArrAux (lmF fuel) de se)
      (sp.foldl (fun acc kv => lmAssign (lmF fuel) acc kv.1 kv.2) dp)
  | _, _, s => s

/-! ## Errors, events, components -/

/-- The error kinds of the design (§7 of the spec): `loadError` /
`fetchError` are I/O failures of the loader/fetcher, `structuralMergeError`
is the `"cannot merge array content object"` throw of `handleInclude`, and
`unresolvableReferenceError` is the spec's kind for unclassifiable targets.
`fuelExhausted` is an artifact of the fuel-driven embedding, never of the
code. -/
inductive MergeError where
  | loadError (loc : String)
  | fetchError (url : String)
  | structuralMergeError (val jsonPath : String)
  | unresolvableReferenceError (what : String)
  | fuelExhausted
deriving DecidableEq

/-- Is an error the spec's `UnresolvableReferenceError` kind? -/
def isUnresolvableErr : MergeError → Bool
  | MergeError.unresolvableReferenceError _ => true
  | _ => false

/-- Is an error the spec's `LoadError` kind? -/
def isLoadErr : MergeError → Bool
  | MergeError.loadError _ => true
  | _ => false

/-- Observable traversal events, used to state the fetch-once /
merged-once claims: `fetch k` is recorded when `getOrCreate` materialises a
new component for canonical key `k` (reading its source), `contentMerge k`
when `handleRef` recursively merges that component's content
(`cmp.content = await this.mergeRefs(cmp.content, …)`). -/
inductive Event where
  | fetch (key : String)
  | contentMerge (key : String)
deriving DecidableEq

/-- Modelled from the spec: the positional policy of `ref.js`
(`classifyContext`): references reached from reusable-schema positions are
hoistable (kind `schemas`); references at literal-inclusion positions
(example/description positions in the policy table) are inline.  The model's
policy: a json path with an `example`/`examples`/`description` segment is
inline, every other path is a schema position. -/
inductive RefType where
  | schemas
  | inlined
deriving DecidableEq

/-- Modelled from the spec: `getRefType` of the absent `ref.js` (see
`RefType`). -/
def getRefType (jsonPath : String) : RefType :=
  if (strSplit jsonPath '.').any
      (fun s => s == "example" || s == "examples" || s == "description") then
    RefType.inlined
  else RefType.schemas

/-- Modelled from the spec: `shouldInclude` of the absent `ref.js` - inline
references are treated as inclusion directives. -/
def shouldInclude (rt : RefType) : Bool := rt == RefType.inlined

/-- The components-section namespace of a kind. -/
def sectionOf : RefType → String
  | _ => "schemas"

/-- Modelled from the spec: a `Component` of the absent `components.js` -
`{canonicalKey, assignedName, content, kind}`. -/
structure Component where
  kind : RefType
  key : String
  name : String
  content : Node

/-- Modelled from the spec: the `ComponentManager` registry of the absent
`components.js` - at most one component per canonical key, registered in
discovery order, plus the name assignment produced by the resolver between
passes (empty during pass 1). -/
structure Manager where
  components : List Component
  resolved : List (String × String)

/-- The interpreter state: the per-pass registry plus the event trace. -/
structure St where
  mgr : Manager
  trace : List Event

def St.fresh (resolved : List (String × String)) : St :=
  { mgr := { components := [], resolved := resolved }, trace := [] }

/-- Modelled from the spec: `ComponentManager.get(refString)`, the lookup
used only for the cycle guard - a same-document reference (`#ptr`) is
already registered when some component's canonical key (`location#ptr`)
ends in it. -/
def mgrGet (m : Manager) (refString : String) : Option Component :=
  m.components.find? fun c => strEndsWith c.key refString

/-- Modelled from the spec: the provisional name of a canonical key - the
final segment of its internal pointer, or the file stem of its location. -/
def provisionalName (ckey : String) : String :=
  let p := parseUrl ckey
  if p.hash.isEmpty then fileStem p.hrefWoHash
  else lastSegment p.hash

/-- `cmp.getLocalRef()`: the short in-document pointer
`#/components/<section>/<assignedName>`. -/
def getLocalRef (c : Component) : String :=
  "#/components/" ++ sectionOf c.kind ++ "/" ++ c.name

/-- Replace the stored content of the component registered under `key`. -/
def setContent (st : St) (key : String) (content : Node) : St :=
  { st with
    mgr := { st.mgr with
      components := st.mgr.components.map fun c =>
        if c.key == key then { c with content := content } else c } }

/-- The external collaborators (§6 of the spec), as a pure environment:
`files` is `DocumentLoader`/`readYAML` (`none` = unreadable, `LoadError`),
`remote` is `ContentFetcher`/`download` composed with parsing, `glob` is
`GlobExpander.expand`, `reTest` is the key-filter regular-expression test
used by `filterObject`, and `cwd` is `process.cwd()`. -/
structure Env where
  files : String → Option Node
  remote : String → Option Node
  glob : String → List String
  reTest : String → String → Bool
  cwd : String

/-- Modelled from the spec: `sliceObject(content, hash)` of the absent
`util.js` - extract the sub-tree at the fragment pointer (`#/a/b`), the
whole document when the pointer is empty; a dangling pointer reads as
`null`/`undefined`. -/
def slicePath (n : Node) : List String → Node
  | [] => n
  | seg :: rest =>
    if seg.isEmpty then slicePath n rest
    else match getKey n seg with
      | some v => slicePath v rest
      | none => Node.nullN

def sliceObject (n : Node) (hash : String) : Node :=
  if hash.isEmpty then n
  else slicePath n (strSplit ⟨hash.toList.drop 1⟩ '/')

/-- Modelled from the spec: `filterObject(obj, pattern)` of the absent
`util.js` - with a pattern, retain only the keys the pattern matches
(`reTest` is the environment's regular-expression test); without one,
return the node unchanged. -/
def filterObject (reTest : String → String → Bool) (n : Node)
    (pat : Option String) : Node :=
  match pat with
  | none => n
  | some p =>
    match n with
    | Node.obj kvs => Node.obj (kvs.filter fun kv => reTest p kv.1)
    | other => other

/-- Modelled from the spec: `ComponentManager.getOrCreate(kind, key)` - the
registered component if the canonical key was seen, else a freshly created
one: its source is loaded (remote keys through the fetcher, the rest through
the loader - a `fetch` event), sliced at the key's pointer, and it is
registered under the name the between-pass resolver assigned (provisional
name during discovery).  Never creates two components for one key. -/
def getOrCreate (env : Env) (kind : RefType) (ckey : String) (st : St) :
    Except MergeError (Component × St) :=
  match st.mgr.components.find? (fun c => c.key == ckey) with
  | some c => Except.ok (c, st)
  | none =>
    let p := parseUrl ckey
    let loaded := if p.isHttp then env.remote p.hrefWoHash else env.files p.hrefWoHash
    match loaded with
    | none =>
      Except.error (if p.isHttp then MergeError.fetchError p.hrefWoHash
                    else MergeError.loadError p.hrefWoHash)
    | some doc =>
      let content := sliceObject doc p.hash
      let name :=
        match st.mgr.resolved.find? (fun q => q.1 == ckey) with
        | some q => q.2
        | none => provisionalName ckey
      let c : Component := ⟨kind, ckey, name, content⟩
      Except.ok (c,
        { mgr := { st.mgr with components := st.mgr.components ++ [c] },
          trace := st.trace ++ [Event.fetch ckey] })

/-- Modelled from the spec: `ComponentNameResolver` - deterministic names
for the discovered components: the default (provisional) name, with a
deterministic numeric suffix on collision, in registration order. -/
def resolveNamesAux : List Component → List String → List (String × String)
  | [], _ => []
  | c :: rest, taken =>
    let base := c.name
    let final := if taken.contains base then base ++ natToStr taken.length else base
    (c.key, final) :: resolveNamesAux rest (taken ++ [final])

def resolveNames (cs : List Component) : List (String × String) :=
  resolveNamesAux cs []

/-- Modelled from the spec: `ComponentManager.getComponentsSection()` - the
registry as a mapping grouped by kind namespace,
`{schemas: {assignedName: content, …}}`; empty registry gives `{}`. -/
def getComponentsSection (m : Manager) : Node :=
  let schemas := m.components.filter fun c => c.kind == RefType.schemas
  match schemas with
  | [] => Node.obj []
  | cs => Node.obj [("schemas", Node.obj (cs.map fun c => (c.name, c.content)))]

/-! ## The merge engine (`src/merger.js`)

The four mutually recursive methods of `Merger` are embedded as one
fuel-indexed interpreter `runF` over a `Call` sum; each method's body is a
plain definition taking the next-level interpreter as the continuation
`rec`, so that the bodies are ordinary non-recursive functions the theorems
can quantify over. -/

/-- A pending call of the merge engine: `mergeC` is `mergeRefs(obj, file,
jsonPath)`, `refC` is `handleRef(ret, key, val, file, jsonPath)`, `includeC`
is `handleInclude(…)`, `discC` is `handleDiscriminator(…)` (only `val`
matters to it: the method reads and mutates `val.mapping`). -/
inductive Call where
  | mergeC (obj : Node) (file jsonPath : String)
  | refC (ret : Node) (key val file jsonPath : String)
  | includeC (ret : Node) (key val file jsonPath : String)
  | discC (val : Node) (file jsonPath : String)

/-- The type of the interpreter continuation. -/
abbrev Rec := Call → St → Except MergeError (Node × St)

/-- The loop of `mergeRefs` (`for (const [key, val] of Object.entries(obj))`,
lines 52-70): `ret[key] = val`, then dispatch on the key; in the default
branch, an array result of a child of an array `ret` is removed at
`Number(key)` and the result concatenated at the end (`splice` + `concat`),
otherwise `ret[key] = merged`. -/
def objLoop (rec : Rec) :
    List (String × Node) → Node → String → String → St →
    Except MergeError (Node × St)
  | [], ret, _, _, st => Except.ok (ret, st)
  | (key, val) :: rest, ret, file, jsonPath, st =>
    let ret1 := jsSetKey ret key val
    if key == "$ref" then
      match rec (Call.refC ret1 key (jsStr val) file jsonPath) st with
      | Except.error e => Except.error e
      | Except.ok (ret2, st2) => objLoop rec rest ret2 file jsonPath st2
    else if (includeMatch key).isSome then
      match rec (Call.includeC ret1 key (jsStr val) file jsonPath) st with
      | Except.error e => Except.error e
      | Except.ok (ret2, st2) => objLoop rec rest ret2 file jsonPath st2
    else if key == "discriminator" then
      match rec (Call.discC val file jsonPath) st with
      | Except.error e => Except.error e
      | Except.ok (val2, st2) =>
        objLoop rec rest (jsSetKey ret1 key val2) file jsonPath st2
    else
      match rec (Call.mergeC val file (jsonPath ++ "." ++ key)) st with
      | Except.error e => Except.error e
      | Except.ok (merged, st2) =>
        if isArr ret1 && isArr merged then
          objLoop rec rest (jsConcat (spliceOne ret1 (jsNumIdx key)) merged)
            file jsonPath st2
        else
          objLoop rec rest (jsSetKey ret1 key merged) file jsonPath st2

/-- `mergeRefs` (lines 47-72): scalars pass through; containers start from a
fresh `[]`/`{}` and run the loop over the input's entries. -/
def mergeRefsBody (rec : Rec) (obj : Node) (file jsonPath : String) (st : St) :
    Except MergeError (Node × St) :=
  match obj with
  | Node.obj kvs => objLoop rec kvs (Node.obj []) file jsonPath st
  | Node.arr es ps =>
    objLoop rec (arrEntriesAux 0 es ++ ps) (Node.arr [] []) file jsonPath st
  | scalar => Except.ok (scalar, st)

/-- The post-processing of `handleInclude` by result shape (lines 163-181):
a sequence result is concatenated into an array `ret`, replaces a `ret`
having exactly one key, and otherwise raises the structural merge error; a
map result is filtered by the key pattern, `_.merge`d into `ret`, and the
directive key deleted. -/
def includePostProcess (reTest : String → String → Bool) (mergeFuel : Nat)
    (ret : Node) (key val jsonPath : String) (keyPattern : Option String)
    (merged : Node) : Except MergeError Node :=
  if isArr merged then
    if isArr ret then Except.ok (jsConcat ret merged)
    else if jsKeysLen ret == 1 then Except.ok merged
    else Except.error (MergeError.structuralMergeError val jsonPath)
  else
    let filtered := filterObject reTest merged keyPattern
    Except.ok (delKey (lmF mergeFuel ret filtered) key)

/-- The tail of `handleInclude` once `content`/`nextFile` are known
(lines 161-181): slice at the directive's fragment, recursively merge, then
post-process by shape. -/
def includeTail (env : Env) (rec : Rec) (mergeFuel : Nat) (ret : Node)
    (key val jsonPath : String) (keyPattern : Option String) (hash : String)
    (content : Node) (nextFile : String) (st : St) :
    Except MergeError (Node × St) :=
  let sliced := sliceObject content hash
  match rec (Call.mergeC sliced nextFile jsonPath) st with
  | Except.error e => Except.error e
  | Except.ok (merged, st1) =>
    match includePostProcess env.reTest mergeFuel ret key val jsonPath
        keyPattern merged with
    | Except.error e => Except.error e
    | Except.ok ret2 => Except.ok (ret2, st1)

/-- The multi-file glob assembly of `handleInclude` (lines 144-154): for
each matched file, a recursive `handleInclude` on a one-key object, keyed by
the file's base name. -/
def globAssemble (rec : Rec) (key : String) :
    List String → String → String → Node → St → Except MergeError (Node × St)
  | [], _, _, content, st => Except.ok (content, st)
  | mf :: rest, file, jsonPath, content, st =>
    let base := fileStem mf
    match rec (Call.includeC (Node.obj [(key, Node.str mf)]) key mf file
        (jsonPath ++ "." ++ base)) st with
    | Except.error e => Except.error e
    | Except.ok (sub, st1) =>
      globAssemble rec key rest file jsonPath (jsSetKey content base sub) st1

/-- `handleInclude` (lines 111-182): an http target is downloaded; a
same-document target is skipped when already registered (cycle guard, lines
121-125) and otherwise re-reads the current file; any other target is joined
to the current directory and, when not remote, expanded as a glob - more
than one match assembles a map keyed by base names, otherwise the joined
path itself is read (also when the glob matched nothing). -/
def handleIncludeBody (env : Env) (rec : Rec) (ret : Node)
    (key val file jsonPath : String) (st : St) :
    Except MergeError (Node × St) :=
  let pRef := parseUrl val
  let pFile := parseUrl file
  let keyPattern := getKeyPattern key
  if pRef.isHttp then
    match env.remote pRef.hrefWoHash with
    | none => Except.error (MergeError.fetchError pRef.hrefWoHash)
    | some content =>
      includeTail env rec 1000 ret key val jsonPath keyPattern pRef.hash
        content pRef.hrefWoHash st
  else if pRef.isLocal then
    if (mgrGet st.mgr val).isSome then Except.ok (ret, st)
    else
      match env.files file with
      | none => Except.error (MergeError.loadError file)
      | some content =>
        includeTail env rec 1000 ret key val jsonPath keyPattern pRef.hash
          content pFile.hrefWoHash st
  else
    let target :=
      if pFile.isHttp then urlResolve (dirname pFile.hrefWoHash ++ "/") val
      else pathJoin (dirname pFile.hrefWoHash) val
    let pT := parseUrl target
    if pT.isHttp then
      match env.remote pT.hrefWoHash with
      | none => Except.error (MergeError.fetchError pT.hrefWoHash)
      | some content =>
        includeTail env rec 1000 ret key val jsonPath keyPattern pRef.hash
          content pT.hrefWoHash st
    else
      let matched := (env.glob pT.hrefWoHash).map
        (pathRelative (dirname pFile.hrefWoHash))
      if 1 < matched.length then
        match globAssemble rec key matched file jsonPath (Node.obj []) st with
        | Except.error e => Except.error e
        | Except.ok (content, st1) =>
          includeTail env rec 1000 ret key val jsonPath keyPattern pRef.hash
            content pT.hrefWoHash st1
      else
        match env.files pT.hrefWoHash with
        | none => Except.error (MergeError.loadError pT.hrefWoHash)
        | some content =>
          includeTail env rec 1000 ret key val jsonPath keyPattern pRef.hash
            content pT.hrefWoHash st

/-- The common tail of `handleRef` after the canonical key is known
(lines 86-108 bar the branching): `getOrCreate`, rewrite
`ret[key] = cmp.getLocalRef()`, then
`cmp.content = await this.mergeRefs(cmp.content, nextFile, jsonPath)`
(recorded as a `contentMerge` event). -/
def refResolveTail (env : Env) (rec : Rec) (ret : Node)
    (key file jsonPath : String) (refType : RefType) (ckey nextFile : String)
    (st : St) : Except MergeError (Node × St) :=
  match getOrCreate env refType ckey st with
  | Except.error e => Except.error e
  | Except.ok (cmp, st1) =>
    let ret1 := jsSetKey ret key (Node.str (getLocalRef cmp))
    let st2 := { st1 with trace := st1.trace ++ [Event.contentMerge ckey] }
    match rec (Call.mergeC cmp.content nextFile jsonPath) st2 with
    | Except.error e => Except.error e
    | Except.ok (c2, st3) => Except.ok (ret1, setContent st3 ckey c2)

/-- `handleRef` (lines 74-109): inline positions delegate to
`handleInclude`; an http reference is registered under its full href; a
same-document reference is skipped when already registered (cycle guard,
lines 88-92) and otherwise registered under `file + hash`; any other string
is joined to the current location's directory. -/
def handleRefBody (env : Env) (rec : Rec) (ret : Node)
    (key val file jsonPath : String) (st : St) :
    Except MergeError (Node × St) :=
  let pRef := parseUrl val
  let pFile := parseUrl file
  let refType := getRefType jsonPath
  if shouldInclude refType then
    handleIncludeBody env rec ret key val file jsonPath st
  else if pRef.isHttp then
    refResolveTail env rec ret key file jsonPath refType pRef.href
      pRef.hrefWoHash st
  else if pRef.isLocal then
    if (mgrGet st.mgr val).isSome then Except.ok (ret, st)
    else
      refResolveTail env rec ret key file jsonPath refType
        (pFile.hrefWoHash ++ pRef.hash) pFile.hrefWoHash st
  else
    let target :=
      if pFile.isHttp then urlResolve (dirname pFile.hrefWoHash ++ "/") val
      else pathJoin (dirname pFile.hrefWoHash) val
    refResolveTail env rec ret key file jsonPath refType target
      (parseUrl target).hrefWoHash st

/-- The loop of `handleDiscriminator` over the snapshot of
`Object.entries(val.mapping)` (lines 188-201): skip a same-document target
already registered (cycle guard) and skip a falsy entry; every other entry
is handed to `handleRef` on the mapping itself at the json path extended
with `.discriminator.<typeTag>`. -/
def discLoop (rec : Rec) :
    List (String × Node) → Node → String → String → St →
    Except MergeError (Node × St)
  | [], mapping, _, _, st => Except.ok (mapping, st)
  | (mkey, mval) :: rest, mapping, file, jsonPath, st =>
    let s := jsStr mval
    let parsedRef := parseUrl s
    if parsedRef.isLocal && (mgrGet st.mgr s).isSome then
      discLoop rec rest mapping file jsonPath st
    else if jsTruthy mval then
      match rec (Call.refC mapping mkey s file
          (jsonPath ++ ".discriminator." ++ mkey)) st with
      | Except.error e => Except.error e
      | Except.ok (mapping2, st2) => discLoop rec rest mapping2 file jsonPath st2
    else
      discLoop rec rest mapping file jsonPath st

/-- `handleDiscriminator` (lines 184-202): nothing happens without a truthy
`val.mapping`; otherwise the mapping entries are processed by `discLoop` and
the updated mapping is written back (in JS it is the same object, mutated in
place). -/
def handleDiscBody (rec : Rec) (val : Node) (file jsonPath : String)
    (st : St) : Except MergeError (Node × St) :=
  match getKey val "mapping" with
  | none => Except.ok (val, st)
  | some mapping =>
    if !jsTruthy mapping then Except.ok (val, st)
    else
      match discLoop rec (entriesOf mapping) mapping file jsonPath st with
      | Except.error e => Except.error e
      | Except.ok (m2, st2) => Except.ok (jsSetKey val "mapping" m2, st2)

/-- The fuel-indexed interpreter tying the four bodies together. -/
def runF (env : Env) : Nat → Call → St → Except MergeError (Node × St)
  | 0, _, _ => Except.error MergeError.fuelExhausted
  | fuel + 1, c, st =>
    match c with
    | Call.mergeC obj file jsonPath =>
      mergeRefsBody (runF env fuel) obj file jsonPath st
    | Call.refC ret key val file jsonPath =>
      handleRefBody env (runF env fuel) ret key val file jsonPath st
    | Call.includeC ret key val file jsonPath =>
      handleIncludeBody env (runF env fuel) ret key val file jsonPath st
    | Call.discC val file jsonPath =>
      handleDiscBody (runF env fuel) val file jsonPath st

/-- `mergeRefs` as called from the outside. -/
def mergeRefsF (env : Env) (fuel : Nat) (obj : Node) (file jsonPath : String)
    (st : St) : Except MergeError (Node × St) :=
  runF env fuel (Call.mergeC obj file jsonPath) st

/-- `Path.resolve(process.cwd(), inputFile)`. -/
def jsResolve (cwd inputFile : String) : String :=
  if strStartsWith inputFile "/" then inputFile else cwd ++ "/" ++ inputFile

/-- `Merger.merge(doc, inputFile)` (lines 27-45): pass 1 over a fresh
registry discovers the components (its document result is discarded), the
name resolver fixes the final names, pass 2 over a second fresh registry
pre-seeded with them produces the document, and finally
`doc.components = _.merge(doc.components, manager.getComponentsSection())`. -/
def mergeF (env : Env) (fuel : Nat) (doc : Node) (inputFile : String) :
    Except MergeError (Node × St) :=
  let currentFile := jsResolve env.cwd inputFile
  match mergeRefsF env fuel doc currentFile "$" (St.fresh []) with
  | Except.error e => Except.error e
  | Except.ok (_, st1) =>
    let resolved := resolveNames st1.mgr.components
    match mergeRefsF env fuel doc currentFile "$" (St.fresh resolved) with
    | Except.error e => Except.error e
    | Except.ok (doc2, st2) =>
      let pre :=
        match getKey doc2 "components" with
        | some p => p
        | none => Node.obj []
      let merged := lmF fuel pre (getComponentsSection st2.mgr)
      Except.ok (jsSetKey doc2 "components" merged, st2)

end OpenapiInclude

/-! ## Observers used to state the claims -/

namespace OpenapiInclude

/-- Read the node at a key path. -/
def nodeAtPath (n : Node) : List String → Option Node
  | [] => some n
  | k :: rest =>
    match getKey n k with
    | some v => nodeAtPath v rest
    | none => none

/-- How many times the trace recursively merged the content of canonical key
`k`. -/
def countContentMerge (tr : List Event) (k : String) : Nat :=
  (tr.filter fun e => e == Event.contentMerge k).length

/-- How many times the trace fetched canonical key `k`. -/
def countFetch (tr : List Event) (k : String) : Nat :=
  (tr.filter fun e => e == Event.fetch k).length

/-- The number of elements of an array node. -/
def arrLen : Node → Nat
  | Node.arr es _ => es.length
  | _ => 0

/-- A small filesystem: `/r/o.yaml` is a one-key schema, `/r/i.yaml` a
two-element sequence, `/r/j.yaml` a map with a nested map under `sib`. -/
def envA : Env :=
  { files := fun p =>
      if p == "/r/o.yaml" then some (Node.obj [("type", Node.str "object")])
      else if p == "/r/i.yaml" then
        some (Node.arr [Node.str "a", Node.str "b"] [])
      else if p == "/r/j.yaml" then
        some (Node.obj [("sib", Node.obj [("y", Node.str "2")])])
      else none
    remote := fun _ => none
    glob := fun p => if p == "/r/i.yaml" then ["/r/i.yaml"] else []
    reTest := fun _ _ => true
    cwd := "/r" }

/-- Two sibling references to the same external file. -/
def docTwoRefs : Node :=
  Node.obj [("a", Node.obj [("$ref", Node.str "o.yaml")]),
            ("b", Node.obj [("$ref", Node.str "o.yaml")])]

/-- A sequence whose first element is an inclusion of a two-element
sequence, followed by a scalar element. -/
def docSeqInc : Node :=
  Node.arr [Node.obj [("$include", Node.str "i.yaml")], Node.str "x"] []

/-- A map whose inclusion directive (of sequence content) comes first,
followed by another key. -/
def docDirFirst : Node :=
  Node.obj [("$include", Node.str "i.yaml"), ("a", Node.str "x")]

/-- A map with a key before an inclusion directive of sequence content. -/
def docDirSecond : Node :=
  Node.obj [("a", Node.str "x"), ("$include", Node.str "i.yaml")]

/-- A map with a sibling map under `sib` and an inclusion whose content also
has a map under `sib`. -/
def docSib : Node :=
  Node.obj [("sib", Node.obj [("x", Node.str "1")]),
            ("$include", Node.str "j.yaml")]

/-- An inclusion whose filesystem target is a glob matching nothing. -/
def docGlobMiss : Node := Node.obj [("$include", Node.str "nope/*.yaml")]

end OpenapiInclude

namespace OpenapiInclude

/-- C3 evaluation: merging `[{$include: i.yaml}, "x"]` where `i.yaml` is
`[a, b]` yields `[a, "x"]` - the expansion's second element is lost and the
trailing element overwritten, instead of the claimed splice `[a, b, "x"]`. -/
theorem c3_code_eval :
    (mergeRefsF envA 20 docSeqInc "/r/m.yaml" "$" (St.fresh [])).map
        (fun p => p.1)
      = Except.ok (Node.arr [Node.str "a", Node.str "x"] []) ∧
    (mergeRefsF envA 20 docSeqInc "/r/m.yaml" "$" (St.fresh [])).map
        (fun p => arrLen p.1)
      = Except.ok 2 ∧ (2 : Nat) ≠ 3 := by
  refine ⟨rfl, rfl, by decide⟩

end OpenapiInclude

namespace OpenapiInclude

/-! ## Support lemmas -/

/-- `find?` over an appended singleton when the prefix found nothing. -/
theorem find?_append_singleton {α} (p : α → Bool) (l : List α) (x : α)
    (h : l.find? p = none) :
    (l ++ [x]).find? p = if p x then some x else none := by
  induction l with
  | nil => cases hpx : p x <;> simp [List.find?, hpx]
  | cons a rest ih =>
    rw [List.find?] at h
    cases hpa : p a with
    | true => rw [hpa] at h; simp at h
    | false =>
      rw [hpa] at h
      rw [List.cons_append, List.find?, hpa]
      exact ih h

end OpenapiInclude

namespace OpenapiInclude

/-- C2 counterexample: one pass of `mergeRefs` over a document with two
references to the same external file registers one component and fetches its
source once, but recursively merges its content twice (once per reference
site) - `contentMerge` fires twice for the canonical target `/r/o.yaml`,
refuting "each distinct canonical target is … recursively merged at most
once" and "content … populated exactly once". -/
theorem c2_counterexample :
    (mergeRefsF envA 20 docTwoRefs "/r/m.yaml" "$" (St.fresh [])).map
        (fun p => (countContentMerge p.2.trace "/r/o.yaml",
                   countFetch p.2.trace "/r/o.yaml",
                   p.2.mgr.components.length))
      = Except.ok (2, 1, 1) ∧ ¬ (2 ≤ 1) :=
  ⟨rfl, by decide⟩

/-- C2 (amended): `getOrCreate` is idempotent - once a call has registered
(or found) the component of a canonical key, a second call on the resulting
state returns the very same component and leaves the state untouched (in
particular it fetches nothing: no event is appended), for any requested
kind.  Content, however, is re-merged at every reference-site encounter of a
non-same-document target (see the counterexample). -/
theorem c2_amended (env : Env) (kind kind2 : RefType) (ckey : String)
    (st : St) (c : Component) (st' : St)
    (h : getOrCreate env kind ckey st = Except.ok (c, st')) :
    getOrCreate env kind2 ckey st' = Except.ok (c, st') := by
  rw [getOrCreate] at h
  cases hfind : st.mgr.components.find? (fun c => c.key == ckey) with
  | some c0 =>
    rw [hfind] at h
    injection h with h
    injection h with h1 h2
    subst h2
    rw [getOrCreate, hfind, h1]
  | none =>
    rw [hfind] at h
    dsimp only at h
    cases hload : (if (parseUrl ckey).isHttp then env.remote (parseUrl ckey).hrefWoHash
        else env.files (parseUrl ckey).hrefWoHash) with
    | none => rw [hload] at h; simp at h
    | some doc =>
      rw [hload] at h
      dsimp only at h
      injection h with h
      injection h with h1 h2
      subst h2
      rw [getOrCreate]
      rw [h1]
      have hfind2 :
          (st.mgr.components ++ [c]).find? (fun x => x.key == ckey) = some c := by
        rw [find?_append_singleton _ _ _ hfind, ← h1]
        simp
      rw [hfind2]

/-- Witness for the amended C2: the registering call on a fresh registry,
then the idempotent second call. -/
theorem c2_witness :
    getOrCreate envA RefType.schemas "/r/o.yaml" (St.fresh [])
      = Except.ok (⟨RefType.schemas, "/r/o.yaml", "o",
          Node.obj [("type", Node.str "object")]⟩,
        ⟨⟨[⟨RefType.schemas, "/r/o.yaml", "o",
            Node.obj [("type", Node.str "object")]⟩], []⟩,
         [Event.fetch "/r/o.yaml"]⟩) ∧
    getOrCreate envA RefType.schemas "/r/o.yaml"
        ⟨⟨[⟨RefType.schemas, "/r/o.yaml", "o",
            Node.obj [("type", Node.str "object")]⟩], []⟩,
         [Event.fetch "/r/o.yaml"]⟩
      = Except.ok (⟨RefType.schemas, "/r/o.yaml", "o",
          Node.obj [("type", Node.str "object")]⟩,
        ⟨⟨[⟨RefType.schemas, "/r/o.yaml", "o",
            Node.obj [("type", Node.str "object")]⟩], []⟩,
         [Event.fetch "/r/o.yaml"]⟩) :=
  ⟨rfl, c2_amended envA RefType.schemas RefType.schemas "/r/o.yaml"
    (St.fresh []) _ _ rfl⟩

/-- C6: the same-document cycle guard - when a same-document reference or
inclusion target is already registered in the current registry, `handleRef`
(lines 88-92) and `handleInclude` (lines 121-125) return the surrounding
node and the state unchanged, for an arbitrary continuation (so the target
is not re-traversed), and with an `ok` result (a tolerated cycle, not an
error). -/
theorem c6_theorem :
    (∀ (env : Env) (rec : Rec) (ret : Node) (key val file jsonPath : String)
        (st : St) (c : Component),
        shouldInclude (getRefType jsonPath) = false →
        (parseUrl val).isHttp = false → (parseUrl val).isLocal = true →
        mgrGet st.mgr val = some c →
        handleRefBody env rec ret key val file jsonPath st
          = Except.ok (ret, st)) ∧
    (∀ (env : Env) (rec : Rec) (ret : Node) (key val file jsonPath : String)
        (st : St) (c : Component),
        (parseUrl val).isHttp = false → (parseUrl val).isLocal = true →
        mgrGet st.mgr val = some c →
        handleIncludeBody env rec ret key val file jsonPath st
          = Except.ok (ret, st)) := by
  constructor
  · intro env rec ret key val file jsonPath st c h1 h2 h3 h4
    rw [handleRefBody]
    simp [h1, h2, h3, h4]
  · intro env rec ret key val file jsonPath st c h2 h3 h4
    rw [handleIncludeBody]
    simp [h2, h3, h4]

/-- Witness for C6 at a concrete registered same-document target. -/
theorem c6_witness :
    handleRefBody envA (fun _ _ => Except.error MergeError.fuelExhausted)
        (Node.obj [("$ref", Node.str "#/P")]) "$ref" "#/P" "/r/m.yaml" "$.x"
        ⟨⟨[⟨RefType.schemas, "/r/m.yaml#/P", "P", Node.nullN⟩], []⟩, []⟩
      = Except.ok (Node.obj [("$ref", Node.str "#/P")],
        ⟨⟨[⟨RefType.schemas, "/r/m.yaml#/P", "P", Node.nullN⟩], []⟩, []⟩) ∧
    handleIncludeBody envA (fun _ _ => Except.error MergeError.fuelExhausted)
        (Node.obj [("$include", Node.str "#/P")]) "$include" "#/P"
        "/r/m.yaml" "$.x"
        ⟨⟨[⟨RefType.schemas, "/r/m.yaml#/P", "P", Node.nullN⟩], []⟩, []⟩
      = Except.ok (Node.obj [("$include", Node.str "#/P")],
        ⟨⟨[⟨RefType.schemas, "/r/m.yaml#/P", "P", Node.nullN⟩], []⟩, []⟩) :=
  ⟨c6_theorem.1 envA _ _ "$ref" "#/P" "/r/m.yaml" "$.x" _
      ⟨RefType.schemas, "/r/m.yaml#/P", "P", Node.nullN⟩ rfl rfl rfl rfl,
   c6_theorem.2 envA _ _ "$include" "#/P" "/r/m.yaml" "$.x" _
      ⟨RefType.schemas, "/r/m.yaml#/P", "P", Node.nullN⟩ rfl rfl rfl⟩

/-- C7 counterexample: an inclusion whose glob matches no path aborts the
merge with a `LoadError` for the unmatched pattern path itself - not with
the spec's `UnresolvableReferenceError`. -/
theorem c7_counterexample :
    mergeRefsF envA 20 docGlobMiss "/r/m.yaml" "$" (St.fresh [])
      = Except.error (MergeError.loadError "/r/nope/*.yaml") ∧
    isUnresolvableErr (MergeError.loadError "/r/nope/*.yaml") = false ∧
    isLoadErr (MergeError.loadError "/r/nope/*.yaml") = true :=
  ⟨rfl, rfl, rfl⟩

/-- C7 (amended): when a filesystem inclusion target's glob expansion
matches no path, `handleInclude` falls through to loading the joined
pattern path itself (lines 155-157), so - the pattern not being a readable
file - the merge aborts with a `LoadError` for that path. -/
theorem c7_amended (env : Env) (rec : Rec) (ret : Node)
    (key val file jsonPath : String) (st : St)
    (h1 : (parseUrl val).isHttp = false) (h2 : (parseUrl val).isLocal = false)
    (h3 : (parseUrl file).isHttp = false)
    (h4 : (parseUrl (pathJoin (dirname (parseUrl file).hrefWoHash) val)).isHttp
        = false)
    (h5 : env.glob
        (parseUrl (pathJoin (dirname (parseUrl file).hrefWoHash) val)).hrefWoHash
        = [])
    (h6 : env.files
        (parseUrl (pathJoin (dirname (parseUrl file).hrefWoHash) val)).hrefWoHash
        = none) :
    handleIncludeBody env rec ret key val file jsonPath st
      = Except.error (MergeError.loadError
          (parseUrl (pathJoin (dirname (parseUrl file).hrefWoHash) val)).hrefWoHash) := by
  rw [handleIncludeBody]
  simp [h1, h2, h3, h4, h5, h6]

/-- Witness for the amended C7 at the concrete zero-match glob. -/
theorem c7_witness :
    handleIncludeBody envA (fun _ _ => Except.error MergeError.fuelExhausted)
        (Node.obj [("$include", Node.str "nope/*.yaml")]) "$include"
        "nope/*.yaml" "/r/m.yaml" "$" (St.fresh [])
      = Except.error (MergeError.loadError "/r/nope/*.yaml") :=
  c7_amended envA _ _ "$include" "nope/*.yaml" "/r/m.yaml" "$" (St.fresh [])
    rfl rfl rfl rfl rfl rfl

end OpenapiInclude

namespace OpenapiInclude

/-! ## Lemmas about `_.merge` and key lists -/

/-- A scalar source always wins in `_.merge`. -/
theorem lmF_str_src (fuel : Nat) (d : Node) (v : String) :
    lmF fuel d (Node.str v) = Node.str v := by
  cases fuel <;> cases d <;> rfl

/-- Looking up the key just written. -/
theorem lookup_setKeyList_self (kvs : List (String × Node)) (k : String)
    (v : Node) : lookupList (setKeyList kvs k v) k = some v := by
  induction kvs with
  | nil => simp [setKeyList, lookupList]
  | cons kv rest ih =>
    obtain ⟨k0, v0⟩ := kv
    rw [setKeyList]
    cases hk : (k0 == k) with
    | true =>
      have hk2 : k0 = k := by simpa using hk
      subst hk2
      simp [lookupList]
    | false => simp [lookupList, hk, ih]

/-- Appending a fresh binding of `k` makes it the lookup result. -/
theorem lookup_append_fresh (kvs : List (String × Node)) (k : String)
    (v : Node) (h : lookupList kvs k = none) :
    lookupList (kvs ++ [(k, v)]) k = some v := by
  induction kvs with
  | nil => simp [lookupList]
  | cons kv rest ih =>
    obtain ⟨k0, v0⟩ := kv
    rw [lookupList] at h
    cases hk : (k0 == k) with
    | true => rw [hk] at h; simp at h
    | false =>
      rw [hk] at h
      simp only [Bool.false_eq_true, if_false, ite_false] at h
      rw [List.cons_append, lookupList, hk]
      simp only [Bool.false_eq_true, if_false, ite_false]
      exact ih h

/-- In `_.merge(dst, {k: scalar})` the source's scalar is the value the
result holds under `k`: the hoisted side of the final components merge wins
every scalar conflict. -/
theorem lmF_single_scalar_wins (fuel : Nat) (d : List (String × Node))
    (k : String) (v : String) :
    getKey (lmF (fuel + 1) (Node.obj d) (Node.obj [(k, Node.str v)])) k
      = some (Node.str v) := by
  show getKey (Node.obj (lmAssign (lmF fuel) d k (Node.str v))) k
      = some (Node.str v)
  rw [lmAssign]
  cases hl : lookupList d k with
  | some dv =>
    simp only [getKey]
    rw [lmF_str_src]
    exact lookup_setKeyList_self d k (Node.str v)
  | none =>
    simp only [getKey]
    exact lookup_append_fresh d k (Node.str v) hl

end OpenapiInclude

namespace OpenapiInclude

/-- The pre-existing components registry of the C1 scenario: the source
document already defines `components.schemas.Pet` with `type: string`,
while the hoisted copy of its top-level `Pet` has `type: object`. -/
def docPre : Node :=
  Node.obj
    [("components", Node.obj [("schemas",
        Node.obj [("Pet", Node.obj [("type", Node.str "string")])])]),
     ("a", Node.obj [("$ref", Node.str "#/Pet")]),
     ("Pet", Node.obj [("type", Node.str "object")])]

/-- The environment serving `docPre` as the input file itself (the loader
re-reads the current file to slice same-document targets). -/
def envPre : Env :=
  { envA with files := fun p => if p == "/r/m.yaml" then some docPre else none }

/-- Follows the spec's words for C1 ("components section equals the
pre-existing local components registry … deep-merged with the registry of
hoisted components, with source entries winning on key conflicts"): a deep
merge in which the source document's pre-existing entries are the winning
side. -/
def componentsSourceWinsSpec (fuel : Nat) (pre hoisted : Node) : Node :=
  lmF fuel hoisted pre

/-- C1 counterexample: on `docPre` the code's final
`components.schemas.Pet.type` is `"object"` - the hoisted component won the
conflict - while the spec's source-entries-win merge of the same two
registries yields `"string"`. -/
theorem c1_counterexample :
    (mergeF envPre 20 docPre "/r/m.yaml").map
        (fun p => nodeAtPath p.1 ["components", "schemas", "Pet", "type"])
      = Except.ok (some (Node.str "object")) ∧
    (mergeF envPre 20 docPre "/r/m.yaml").map
        (fun p => getComponentsSection p.2.mgr)
      = Except.ok (Node.obj [("schemas", Node.obj [("Pet",
          Node.obj [("type", Node.str "object")])])]) ∧
    nodeAtPath
        (componentsSourceWinsSpec 20
          (Node.obj [("schemas",
            Node.obj [("Pet", Node.obj [("type", Node.str "string")])])])
          (Node.obj [("schemas",
            Node.obj [("Pet", Node.obj [("type", Node.str "object")])])]))
        ["schemas", "Pet", "type"]
      = some (Node.str "string") ∧
    Node.str "object" ≠ Node.str "string" := by
  refine ⟨rfl, rfl, rfl, by simp⟩

/-- C1 (amended): the final document is the pass-2 result with its
`components` key replaced by `_.merge(doc.components, hoistedSection)` - a
lodash deep merge in which the *hoisted* registry is the source side and
therefore wins key conflicts (second conjunct: a scalar under a hoisted key
always prevails over the pre-existing entry). -/
theorem c1_amended :
    (∀ (env : Env) (fuel : Nat) (doc : Node) (inputFile : String)
        (r1 doc2 : Node) (st1 st2 : St) (pre : Node),
        mergeRefsF env fuel doc (jsResolve env.cwd inputFile) "$" (St.fresh [])
          = Except.ok (r1, st1) →
        mergeRefsF env fuel doc (jsResolve env.cwd inputFile) "$"
            (St.fresh (resolveNames st1.mgr.components))
          = Except.ok (doc2, st2) →
        getKey doc2 "components" = some pre →
        mergeF env fuel doc inputFile
          = Except.ok (jsSetKey doc2 "components"
              (lmF fuel pre (getComponentsSection st2.mgr)), st2)) ∧
    (∀ (fuel : Nat) (d : List (String × Node)) (k v : String),
        getKey (lmF (fuel + 1) (Node.obj d) (Node.obj [(k, Node.str v)])) k
          = some (Node.str v)) := by
  constructor
  · intro env fuel doc inputFile r1 doc2 st1 st2 pre h1 h2 h3
    rw [mergeF]
    dsimp only
    rw [h1]
    dsimp only
    rw [h2]
    dsimp only
    rw [h3]
  · exact fun fuel d k v => lmF_single_scalar_wins fuel d k v

/-- Witness for the amended C1 on the concrete `docPre` scenario. -/
theorem c1_witness :
    (mergeF envPre 20 docPre "/r/m.yaml").map
        (fun p => nodeAtPath p.1 ["components", "schemas", "Pet", "type"])
      = Except.ok (some (Node.str "object")) ∧
    getKey (lmF 1 (Node.obj [("Pet", Node.str "old")])
        (Node.obj [("Pet", Node.str "new")])) "Pet" = some (Node.str "new") := by
  constructor
  · have h := c1_amended.1 envPre 20 docPre "/r/m.yaml" _ _ _ _ _ rfl rfl rfl
    rw [h]
    rfl
  · exact c1_amended.2 0 [("Pet", Node.str "old")] "Pet" "new"

end OpenapiInclude

namespace OpenapiInclude

/-- C4 counterexample: a map whose inclusion directive (of sequence content)
is its first key and which holds a further key `a` does *not* fail - the map
is replaced by the sequence when the directive is processed (only keys
already accumulated count), and the later key lands as a property of the
array.  The error does fire when a key precedes the directive (second
conjunct). -/
theorem c4_counterexample :
    (mergeRefsF envA 20 docDirFirst "/r/m.yaml" "$" (St.fresh [])).map
        (fun p => p.1)
      = Except.ok (Node.arr [Node.str "a", Node.str "b"]
          [("a", Node.str "x")]) ∧
    mergeRefsF envA 20 docDirSecond "/r/m.yaml" "$" (St.fresh [])
      = Except.error (MergeError.structuralMergeError "i.yaml" "$") :=
  ⟨rfl, rfl⟩

/-- C4 (amended): `handleInclude`'s post-processing of a sequence result, by
the shape of the accumulated surrounding value: a sequence is appended to;
a one-key map (necessarily just the directive) is replaced by the sequence;
a map carrying any other *already-accumulated* key raises the structural
merge error. -/
theorem c4_amended (reTest : String → String → Bool) (mergeFuel : Nat)
    (ret : Node) (key val jsonPath : String) (kp : Option String)
    (merged : Node) (hm : isArr merged = true) :
    (isArr ret = true →
      includePostProcess reTest mergeFuel ret key val jsonPath kp merged
        = Except.ok (jsConcat ret merged)) ∧
    (isArr ret = false → jsKeysLen ret = 1 →
      includePostProcess reTest mergeFuel ret key val jsonPath kp merged
        = Except.ok merged) ∧
    (isArr ret = false → jsKeysLen ret ≠ 1 →
      includePostProcess reTest mergeFuel ret key val jsonPath kp merged
        = Except.error (MergeError.structuralMergeError val jsonPath)) := by
  refine ⟨?_, ?_, ?_⟩
  · intro h1
    simp [includePostProcess, hm, h1]
  · intro h1 h2
    simp [includePostProcess, hm, h1, h2]
  · intro h1 h2
    simp [includePostProcess, hm, h1, h2]

/-- Witness for the amended C4: the three shapes at concrete inputs. -/
theorem c4_witness :
    includePostProcess (fun _ _ => true) 5 (Node.arr [Node.str "q"] [])
        "$include" "z" "$" none (Node.arr [Node.str "w"] [])
      = Except.ok (Node.arr [Node.str "q", Node.str "w"] []) ∧
    includePostProcess (fun _ _ => true) 5
        (Node.obj [("$include", Node.str "z")]) "$include" "z" "$" none
        (Node.arr [Node.str "w"] [])
      = Except.ok (Node.arr [Node.str "w"] []) ∧
    includePostProcess (fun _ _ => true) 5
        (Node.obj [("a", Node.str "1"), ("$include", Node.str "z")])
        "$include" "z" "$" none (Node.arr [Node.str "w"] [])
      = Except.error (MergeError.structuralMergeError "z" "$") :=
  ⟨(c4_amended (fun _ _ => true) 5 (Node.arr [Node.str "q"] []) "$include" "z"
      "$" none (Node.arr [Node.str "w"] []) rfl).1 rfl,
   (c4_amended (fun _ _ => true) 5 (Node.obj [("$include", Node.str "z")])
      "$include" "z" "$" none (Node.arr [Node.str "w"] []) rfl).2.1 rfl rfl,
   (c4_amended (fun _ _ => true) 5
      (Node.obj [("a", Node.str "1"), ("$include", Node.str "z")]) "$include"
      "z" "$" none (Node.arr [Node.str "w"] []) rfl).2.2 rfl (by decide)⟩

end OpenapiInclude

namespace OpenapiInclude

/-! ## Key-list lemmas for the map-result postprocessing (C5) -/

/-- A key that fails to look up is not among the keys. -/
theorem not_mem_of_lookup_none (kvs : List (String × Node)) (k : String)
    (h : lookupList kvs k = none) : k ∉ kvs.map Prod.fst := by
  induction kvs with
  | nil => simp
  | cons kv rest ih =>
    obtain ⟨k0, v0⟩ := kv
    rw [lookupList] at h
    cases hk : (k0 == k) with
    | true => rw [hk] at h; simp at h
    | false =>
      rw [hk] at h
      simp only [Bool.false_eq_true, if_false, ite_false] at h
      have hne : k0 ≠ k := by simpa using hk
      simp only [List.map_cons, List.mem_cons, not_or]
      exact ⟨Ne.symm hne, ih h⟩

/-- A key that is absent fails to look up. -/
theorem lookup_none_of_not_mem (kvs : List (String × Node)) (k : String)
    (h : k ∉ kvs.map Prod.fst) : lookupList kvs k = none := by
  induction kvs with
  | nil => rfl
  | cons kv rest ih =>
    obtain ⟨k0, v0⟩ := kv
    simp only [List.map_cons, List.mem_cons, not_or] at h
    rw [lookupList]
    have hk : (k0 == k) = false := by simp [Ne.symm h.1]
    rw [hk]
    simp only [Bool.false_eq_true, if_false, ite_false]
    exact ih h.2

/-- Writing an already-present key keeps the key list unchanged. -/
theorem map_fst_setKeyList_present (kvs : List (String × Node)) (k : String)
    (v : Node) (dv : Node) (h : lookupList kvs k = some dv) :
    (setKeyList kvs k v).map Prod.fst = kvs.map Prod.fst := by
  induction kvs with
  | nil => simp [lookupList] at h
  | cons kv rest ih =>
    obtain ⟨k0, v0⟩ := kv
    rw [lookupList] at h
    rw [setKeyList]
    cases hk : (k0 == k) with
    | true => simp [hk]
    | false =>
      rw [hk] at h
      simp only [Bool.false_eq_true, if_false, ite_false] at h
      simp [hk, ih h]

/-- One `_.merge` assignment step preserves distinctness of the keys. -/
theorem lmAssign_nodup (rec : Node → Node → Node) (d : List (String × Node))
    (k : String) (v : Node) (h : (d.map Prod.fst).Nodup) :
    ((lmAssign rec d k v).map Prod.fst).Nodup := by
  rw [lmAssign]
  cases hl : lookupList d k with
  | some dv => rw [map_fst_setKeyList_present d k _ dv hl]; exact h
  | none =>
    have hk : k ∉ d.map Prod.fst := not_mem_of_lookup_none d k hl
    simp [List.nodup_append, h, hk]

/-- The `_.merge` fold preserves distinctness of the keys. -/
theorem lm_fold_nodup (rec : Node → Node → Node)
    (s : List (String × Node)) :
    ∀ d : List (String × Node), (d.map Prod.fst).Nodup →
      ((s.foldl (fun acc kv => lmAssign rec acc kv.1 kv.2) d).map
        Prod.fst).Nodup := by
  induction s with
  | nil => intro d h; simpa using h
  | cons kv rest ih =>
    intro d h
    rw [List.foldl_cons]
    exact ih _ (lmAssign_nodup rec d kv.1 kv.2 h)

/-- Deleting a key from a distinct-keyed list removes it entirely. -/
theorem lookup_removeKeyList_self (kvs : List (String × Node)) (k : String)
    (h : (kvs.map Prod.fst).Nodup) :
    lookupList (removeKeyList kvs k) k = none := by
  induction kvs with
  | nil => rfl
  | cons kv rest ih =>
    obtain ⟨k0, v0⟩ := kv
    rw [List.map_cons, List.nodup_cons] at h
    rw [removeKeyList]
    cases hk : (k0 == k) with
    | true =>
      have hk2 : k0 = k := by simpa using hk
      subst hk2
      exact lookup_none_of_not_mem rest k0 h.1
    | false =>
      simp only [Bool.false_eq_true, if_false, ite_false]
      rw [lookupList, hk]
      simp only [Bool.false_eq_true, if_false, ite_false]
      exact ih h.2

/-- Only keys the pattern matches survive `filterObject`. -/
theorem lookup_filter_matches (reTest : String → String → Bool) (p : String)
    (m : List (String × Node)) (k : String) (v : Node)
    (h : lookupList (m.filter fun kv => reTest p kv.1) k = some v) :
    reTest p k = true := by
  induction m with
  | nil => simp [lookupList] at h
  | cons kv rest ih =>
    rw [List.filter] at h
    cases hq : reTest p kv.1 with
    | true =>
      rw [hq] at h
      rw [lookupList] at h
      cases hk : (kv.1 == k) with
      | true =>
        have hk2 : kv.1 = k := by simpa using hk
        rw [← hk2]
        exact hq
      | false =>
        rw [hk] at h
        simp only [Bool.false_eq_true, if_false, ite_false] at h
        exact ih h
    | false =>
      rw [hq] at h
      exact ih h

end OpenapiInclude

namespace OpenapiInclude

/-- Follows the spec's words for C5 ("the remaining keys are shallow-merged
into the surrounding map"): each of the included map's keys replaces the
surrounding map's value wholesale, for comparison with the source's deep
`_.merge`. -/
def shallowMergeSpec : Node → Node → Node
  | Node.obj d, Node.obj s =>
    Node.obj (s.foldl (fun acc kv => setKeyList acc kv.1 kv.2) d)
  | _, s => s

/-- C5 counterexample: including `j.yaml` (which defines `sib.y`) next to a
surrounding `sib.x` deep-merges the two `sib` maps - `x` survives alongside
`y` - whereas the spec's shallow merge would replace `sib` wholesale,
losing `x`. -/
theorem c5_counterexample :
    (mergeRefsF envA 20 docSib "/r/m.yaml" "$" (St.fresh [])).map
        (fun p => p.1)
      = Except.ok (Node.obj [("sib",
          Node.obj [("x", Node.str "1"), ("y", Node.str "2")])]) ∧
    nodeAtPath
        (delKey (shallowMergeSpec
          (Node.obj [("sib", Node.obj [("x", Node.str "1")]),
                     ("$include", Node.str "j.yaml")])
          (Node.obj [("sib", Node.obj [("y", Node.str "2")])])) "$include")
        ["sib", "x"]
      = none ∧
    (mergeRefsF envA 20 docSib "/r/m.yaml" "$" (St.fresh [])).map
        (fun p => nodeAtPath p.1 ["sib", "x"])
      = Except.ok (some (Node.str "1")) :=
  ⟨rfl, rfl, rfl⟩

/-- C5 (amended): for a map result, `handleInclude` applies the key filter,
*deep*-merges (`_.merge`) the filtered map into the surrounding value, and
deletes the directive key; the directive key is absent from the output
(for a distinct-keyed surrounding map), and only pattern-matching keys
survive the filter. -/
theorem c5_amended :
    (∀ (reTest : String → String → Bool) (mergeFuel : Nat) (ret : Node)
        (key val jsonPath : String) (kp : Option String) (merged : Node),
        isArr merged = false →
        includePostProcess reTest mergeFuel ret key val jsonPath kp merged
          = Except.ok (delKey (lmF mergeFuel ret
              (filterObject reTest merged kp)) key)) ∧
    (∀ (reTest : String → String → Bool) (mergeFuel : Nat)
        (d : List (String × Node)) (key val jsonPath : String)
        (kp : Option String) (merged out : Node),
        isArr merged = false →
        (d.map Prod.fst).Nodup →
        includePostProcess reTest (mergeFuel + 1) (Node.obj d) key val
            jsonPath kp merged = Except.ok out →
        getKey out key = none) ∧
    (∀ (reTest : String → String → Bool) (p : String)
        (m : List (String × Node)) (k : String) (v : Node),
        lookupList (m.filter fun kv => reTest p kv.1) k = some v →
        reTest p k = true) := by
  refine ⟨?_, ?_, ?_⟩
  · intro reTest mergeFuel ret key val jsonPath kp merged hm
    simp [includePostProcess, hm]
  · intro reTest mergeFuel d key val jsonPath kp merged out hm hnd h
    rw [includePostProcess] at h
    rw [hm] at h
    simp only [Bool.false_eq_true, if_false, ite_false] at h
    injection h with h
    subst h
    cases hmg : merged with
    | arr es ps => rw [hmg] at hm; simp [isArr] at hm
    | str s =>
      cases kp <;> simp [filterObject, lmF, delKey, getKey]
    | nullN =>
      cases kp <;> simp [filterObject, lmF, delKey, getKey]
    | obj m =>
      have hobj : ∃ ms, filterObject reTest (Node.obj m) kp = Node.obj ms := by
        cases kp with
        | none => exact ⟨m, rfl⟩
        | some p => exact ⟨m.filter fun kv => reTest p kv.1, rfl⟩
      obtain ⟨ms, hms⟩ := hobj
      rw [hms]
      show getKey (delKey (Node.obj ((ms.foldl
        (fun acc kv => lmAssign (lmF mergeFuel) acc kv.1 kv.2) d))) key) key
        = none
      rw [delKey, getKey]
      exact lookup_removeKeyList_self _ key
        (lm_fold_nodup (lmF mergeFuel) ms d hnd)
  · exact fun reTest p m k v h => lookup_filter_matches reTest p m k v h

/-- Witness for the amended C5 at concrete inputs: the deep-merge equation,
the deleted directive key, and a filtered-out key. -/
theorem c5_witness :
    includePostProcess (fun _ _ => true) 5
        (Node.obj [("sib", Node.obj [("x", Node.str "1")]),
                   ("$include", Node.str "j.yaml")])
        "$include" "j.yaml" "$" none
        (Node.obj [("sib", Node.obj [("y", Node.str "2")])])
      = Except.ok (delKey (lmF 5
          (Node.obj [("sib", Node.obj [("x", Node.str "1")]),
                     ("$include", Node.str "j.yaml")])
          (Node.obj [("sib", Node.obj [("y", Node.str "2")])])) "$include") ∧
    getKey (Node.obj [("sib",
        Node.obj [("x", Node.str "1"), ("y", Node.str "2")])]) "$include"
      = none ∧
    (fun (p k : String) => strStartsWith k p) "a" "b" = false := by
  refine ⟨?_, ?_, by decide⟩
  · exact c5_amended.1 (fun _ _ => true) 5 _ "$include" "j.yaml" "$" none _ rfl
  · exact c5_amended.2.1 (fun _ _ => true) 4
      [("sib", Node.obj [("x", Node.str "1")]),
       ("$include", Node.str "j.yaml")]
      "$include" "j.yaml" "$" none
      (Node.obj [("sib", Node.obj [("y", Node.str "2")])]) _ rfl
      (by decide) rfl

end OpenapiInclude

namespace OpenapiInclude

end OpenapiInclude

namespace OpenapiInclude

/-! ## A heap-level model of the merge walk (for the frame claim C9)

The value-level interpreter above cannot express JS object identity, so the
in-place-mutation claim is settled against a second embedding of the same
source lines in which map nodes live on an explicit heap and
`ret[key] = val` copies *references*.  It mirrors `mergeRefs`, `handleRef`
and `handleDiscriminator` exactly as above; its scope is documents made of
maps and scalars (no sequences) without inclusion directives - an inclusion
key stops the run with `outOfScope` (the aliasing behaviour at issue lives
entirely in the `$ref`/`discriminator` branches; inclusion is covered by
the value-level embedding). -/

/-- A heap value: a scalar, `null`, or a reference to a heap object. -/
inductive HNode where
  | hstr : String → HNode
  | hnull : HNode
  | hid : Nat → HNode
deriving DecidableEq

/-- A heap object: a JS map in insertion order. -/
structure HObj where
  entries : List (String × HNode)
deriving DecidableEq

/-- The heap: allocated objects and the next fresh address. -/
structure Heap where
  objs : List (Nat × HObj)
  next : Nat
deriving DecidableEq

def Heap.look (h : Heap) (i : Nat) : Option HObj :=
  match h.objs.find? (fun q => q.1 == i) with
  | some q => some q.2
  | none => none

def Heap.alloc (h : Heap) (o : HObj) : Nat × Heap :=
  (h.next, { objs := h.objs ++ [(h.next, o)], next := h.next + 1 })

/-- Replace the object stored at an (existing) address. -/
def Heap.writeObj (h : Heap) (i : Nat) (o : HObj) : Heap :=
  { h with objs := h.objs.map fun q => if q.1 == i then (q.1, o) else q }

/-- `setKeyList` for heap values. -/
def hSetKeyList (kvs : List (String × HNode)) (k : String) (v : HNode) :
    List (String × HNode) :=
  match kvs with
  | [] => [(k, v)]
  | (k0, v0) :: rest =>
    if k0 == k then (k0, v) :: rest else (k0, v0) :: hSetKeyList rest k v

/-- `obj[key] = v` through the heap (no-op on a dangling address). -/
def Heap.writeKey (h : Heap) (i : Nat) (k : String) (v : HNode) : Heap :=
  match h.look i with
  | some o => h.writeObj i ⟨hSetKeyList o.entries k v⟩
  | none => h

end OpenapiInclude

namespace OpenapiInclude

end OpenapiInclude

namespace OpenapiInclude

/-! ## Frame reasoning for the heap model (C9) -/

/-- Well-formed heap: addresses at or past `next` are unallocated. -/
def heapWF (h : Heap) : Prop := ∀ i, h.next ≤ i → h.look i = none

/-- No `discriminator` key in an object. -/
def hObjDiscFree (o : HObj) : Bool :=
  o.entries.all fun kv => !(kv.1 == "discriminator")

/-- No object of the heap carries a `discriminator` key. -/
def heapDiscFree (h : Heap) : Prop :=
  ∀ i o, h.look i = some o → hObjDiscFree o = true

/-- Pure trees free of `discriminator` keys (closed under taking members,
so slicing preserves it). -/
inductive DiscFreeN : Node → Prop
  | str (s : String) : DiscFreeN (Node.str s)
  | nullN : DiscFreeN Node.nullN
  | arr (es : List Node) (ps : List (String × Node))
      (he : ∀ e ∈ es, DiscFreeN e)
      (hp : ∀ kv ∈ ps, DiscFreeN kv.2) : DiscFreeN (Node.arr es ps)
  | obj (kvs : List (String × Node))
      (hk : ∀ kv ∈ kvs, kv.1 ≠ "discriminator")
      (hv : ∀ kv ∈ kvs, DiscFreeN kv.2) : DiscFreeN (Node.obj kvs)

/-- A successful lookup denotes a member whose key is the one looked up. -/
theorem lookupList_mem (kvs : List (String × Node)) (k : String) (v : Node)
    (h : lookupList kvs k = some v) : (k, v) ∈ kvs := by
  induction kvs with
  | nil => simp [lookupList] at h
  | cons kv rest ih =>
    obtain ⟨k0, v0⟩ := kv
    rw [lookupList] at h
    cases hk : (k0 == k) with
    | true =>
      rw [hk] at h
      simp only [if_true, ite_true] at h
      injection h with h
      have hk2 : k0 = k := by simpa using hk
      subst hk2; subst h
      simp
    | false =>
      rw [hk] at h
      simp only [Bool.false_eq_true, if_false, ite_false] at h
      simp [ih h]

/-- A member of a discriminator-free node is discriminator-free. -/
theorem DiscFreeN.getKey (n : Node) (k : String) (v : Node)
    (hn : DiscFreeN n) (h : getKey n k = some v) : DiscFreeN v := by
  cases hn with
  | str s => simp [OpenapiInclude.getKey] at h
  | nullN => simp [OpenapiInclude.getKey] at h
  | obj kvs hk hv =>
    simp only [OpenapiInclude.getKey] at h
    exact hv (k, v) (lookupList_mem kvs k v h)
  | arr es ps he hp =>
    simp only [OpenapiInclude.getKey] at h
    cases hc : canonIdx k with
    | some i =>
      rw [hc] at h
      exact he v (List.get?_mem h)
    | none =>
      rw [hc] at h
      exact hp (k, v) (lookupList_mem ps k v h)

/-- Slicing preserves discriminator-freeness. -/
theorem DiscFreeN.slicePath (segs : List String) :
    ∀ n : Node, DiscFreeN n → DiscFreeN (slicePath n segs) := by
  induction segs with
  | nil => intro n hn; exact hn
  | cons seg rest ih =>
    intro n hn
    rw [OpenapiInclude.slicePath]
    cases hse : seg.isEmpty with
    | true => simp only [hse, if_true, ite_true]; exact ih n hn
    | false =>
      simp only [hse, Bool.false_eq_true, if_false, ite_false]
      cases hk : OpenapiInclude.getKey n seg with
      | some v => exact ih v (DiscFreeN.getKey n seg v hn hk)
      | none => exact DiscFreeN.nullN

/-- Slicing preserves discriminator-freeness. -/
theorem DiscFreeN.sliceObject (n : Node) (hash : String) (hn : DiscFreeN n) :
    DiscFreeN (sliceObject n hash) := by
  rw [OpenapiInclude.sliceObject]
  cases hh : hash.isEmpty with
  | true => simpa [hh] using hn
  | false =>
    simp only [hh, Bool.false_eq_true, if_false, ite_false]
    exact DiscFreeN.slicePath _ n hn

/-! ### Heap operation lemmas -/

theorem look_alloc_ne (h : Heap) (o : HObj) (i : Nat) (hi : i ≠ h.next) :
    (h.alloc o).2.look i = h.look i := by
  have hfind : (h.objs ++ [(h.next, o)]).find? (fun q => q.1 == i)
      = h.objs.find? (fun q => q.1 == i) := by
    induction h.objs with
    | nil =>
      have hne : (h.next == i) = false := by simp [Ne.symm hi]
      simp [List.find?, hne]
    | cons q rest ih =>
      rw [List.cons_append, List.find?, List.find?]
      cases hq : (q.1 == i) with
      | true => rfl
      | false => exact ih
  show (match (h.objs ++ [(h.next, o)]).find? (fun q => q.1 == i) with
        | some q => some q.2 | none => none) = h.look i
  rw [hfind]
  rfl

theorem alloc_next (h : Heap) (o : HObj) : (h.alloc o).2.next = h.next + 1 :=
  rfl

theorem look_alloc_self (h : Heap) (o : HObj) (hwf : heapWF h) :
    (h.alloc o).2.look h.next = some o := by
  have hnone : h.objs.find? (fun q => q.1 == h.next) = none := by
    have hl := hwf h.next (Nat.le_refl _)
    rw [Heap.look] at hl
    cases hf : h.objs.find? (fun q => q.1 == h.next) with
    | none => rfl
    | some q => rw [hf] at hl; simp at hl
  show (match (h.objs ++ [(h.next, o)]).find? (fun q => q.1 == h.next) with
        | some q => some q.2 | none => none) = some o
  rw [find?_append_singleton _ _ _ hnone]
  simp

theorem alloc_WF (h : Heap) (o : HObj) (hwf : heapWF h) :
    heapWF (h.alloc o).2 := by
  intro i hi
  rw [alloc_next] at hi
  have hne : i ≠ h.next := by omega
  rw [look_alloc_ne h o i hne]
  exact hwf i (by omega)

theorem alloc_discFree (h : Heap) (o : HObj) (hwf : heapWF h)
    (hdf : heapDiscFree h) (ho : hObjDiscFree o = true) :
    heapDiscFree (h.alloc o).2 := by
  intro i o' hi
  by_cases hne : i = h.next
  · subst hne
    rw [look_alloc_self h o hwf] at hi
    injection hi with hi
    subst hi
    exact ho
  · rw [look_alloc_ne h o i hne] at hi
    exact hdf i o' hi

end OpenapiInclude

namespace OpenapiInclude

theorem writeObj_next (h : Heap) (i : Nat) (o : HObj) :
    (h.writeObj i o).next = h.next := rfl

/-- `find?` by address over the write's map, away from the written
address. -/
theorem find?_map_write (objs : List (Nat × HObj)) (i : Nat) (o : HObj)
    (j : Nat) (hj : j ≠ i) :
    ((objs.map fun q => if q.1 == i then (q.1, o) else q).find?
        fun q => q.1 == j)
      = objs.find? fun q => q.1 == j := by
  induction objs with
  | nil => rfl
  | cons q rest ih =>
    obtain ⟨qi, qo⟩ := q
    rw [List.map_cons]
    by_cases hqj : qi = j
    · subst hqj
      have hqi : ((qi, qo).1 == i) = false := by simp [hj]
      simp only [hqi, Bool.false_eq_true, if_false, ite_false]
      rw [List.find?_cons_of_pos, List.find?_cons_of_pos] <;> simp
    · by_cases hqi : qi = i
      · subst hqi
        simp only [beq_self_eq_true, if_true, ite_true]
        rw [List.find?_cons_of_neg, List.find?_cons_of_neg]
        · exact ih
        · simp [hqj]
        · simp [hqj]
      · have hqi2 : ((qi, qo).1 == i) = false := by simp [hqi]
        simp only [hqi2, Bool.false_eq_true, if_false, ite_false]
        rw [List.find?_cons_of_neg, List.find?_cons_of_neg]
        · exact ih
        · simp [hqj]
        · simp [hqj]

/-- `find?` at the written address finds the written object. -/
theorem find?_map_write_self (objs : List (Nat × HObj)) (i : Nat) (o : HObj)
    (q0 : Nat × HObj) (h : objs.find? (fun q => q.1 == i) = some q0) :
    ((objs.map fun q => if q.1 == i then (q.1, o) else q).find?
        fun q => q.1 == i)
      = some (q0.1, o) := by
  induction objs with
  | nil => simp [List.find?] at h
  | cons q rest ih =>
    obtain ⟨qi, qo⟩ := q
    rw [List.map_cons]
    by_cases hqi : qi = i
    · subst hqi
      rw [List.find?_cons_of_pos _ (by simp)] at h
      injection h with h
      subst h
      simp only [beq_self_eq_true, if_true, ite_true]
      rw [List.find?_cons_of_pos _ (by simp)]
    · have hpi : ((qi, qo).1 == i) = false := by simp [hqi]
      rw [List.find?_cons_of_neg _ (by simp [hqi])] at h
      simp only [hpi, Bool.false_eq_true, if_false, ite_false]
      rw [List.find?_cons_of_neg _ (by simp [hqi])]
      exact ih h

theorem look_writeObj_ne (h : Heap) (i : Nat) (o : HObj) (j : Nat)
    (hj : j ≠ i) : (h.writeObj i o).look j = h.look j := by
  unfold Heap.look Heap.writeObj
  dsimp only
  rw [find?_map_write h.objs i o j hj]

theorem look_writeObj_self (h : Heap) (i : Nat) (o o0 : HObj)
    (hl : h.look i = some o0) : (h.writeObj i o).look i = some o := by
  unfold Heap.look at hl ⊢
  unfold Heap.writeObj
  dsimp only
  cases hf : h.objs.find? (fun q => q.1 == i) with
  | none => rw [hf] at hl; exact absurd hl (by simp)
  | some q0 => rw [find?_map_write_self h.objs i o q0 hf]

/-- Setting a non-`discriminator` key preserves an object's freeness. -/
theorem hSetKeyList_discFree (kvs : List (String × HNode)) (k : String)
    (v : HNode) (hk : (k == "discriminator") = false)
    (h : kvs.all (fun kv => !(kv.1 == "discriminator")) = true) :
    (hSetKeyList kvs k v).all (fun kv => !(kv.1 == "discriminator"))
      = true := by
  induction kvs with
  | nil =>
    rw [hSetKeyList]
    simp [hk]
  | cons kv rest ih =>
    obtain ⟨k0, v0⟩ := kv
    simp only [List.all_cons, Bool.and_eq_true] at h
    rw [hSetKeyList]
    cases hk0 : (k0 == k) with
    | true =>
      simp only [if_true, ite_true, List.all_cons, Bool.and_eq_true]
      exact ⟨h.1, h.2⟩
    | false =>
      simp only [Bool.false_eq_true, if_false, ite_false, List.all_cons,
        Bool.and_eq_true]
      exact ⟨h.1, ih h.2⟩

theorem writeKey_next (h : Heap) (i : Nat) (k : String) (v : HNode) :
    (h.writeKey i k v).next = h.next := by
  unfold Heap.writeKey
  cases h.look i <;> rfl

theorem look_writeKey_ne (h : Heap) (i : Nat) (k : String) (v : HNode)
    (j : Nat) (hj : j ≠ i) : (h.writeKey i k v).look j = h.look j := by
  unfold Heap.writeKey
  cases h.look i with
  | none => rfl
  | some o => exact look_writeObj_ne h i _ j hj

theorem writeKey_WF (h : Heap) (i : Nat) (k : String) (v : HNode)
    (hwf : heapWF h) : heapWF (h.writeKey i k v) := by
  intro j hj
  rw [writeKey_next] at hj
  unfold Heap.writeKey
  cases hl : h.look i with
  | none => exact hwf j hj
  | some o =>
    by_cases hji : j = i
    · subst hji
      rw [hwf j hj] at hl
      exact absurd hl (by simp)
    · rw [look_writeObj_ne h i _ j hji]
      exact hwf j hj

theorem writeKey_discFree (h : Heap) (i : Nat) (k : String) (v : HNode)
    (hk : (k == "discriminator") = false) (hdf : heapDiscFree h) :
    heapDiscFree (h.writeKey i k v) := by
  intro j o' hj
  unfold Heap.writeKey at hj
  cases hl : h.look i with
  | none => rw [hl] at hj; exact hdf j o' hj
  | some o =>
    rw [hl] at hj
    by_cases hji : j = i
    · subst hji
      rw [look_writeObj_self h j _ o hl] at hj
      injection hj with hj
      subst hj
      exact hSetKeyList_discFree o.entries k v hk (hdf j o hl)
    · rw [look_writeObj_ne h i _ j hji] at hj
      exact hdf j o' hj

end OpenapiInclude

namespace OpenapiInclude

/-- One step of the frame invariant: the heap has only grown, stays
well-formed and discriminator-free, and every address below the baseline
`n0` is untouched. -/
structure FrameStep (n0 : Nat) (h h' : Heap) : Prop where
  next_le : h.next ≤ h'.next
  wf : heapWF h'
  df : heapDiscFree h'
  pres : ∀ i, i < n0 → h'.look i = h.look i

theorem FrameStep.rfl (n0 : Nat) (h : Heap) (hwf : heapWF h)
    (hdf : heapDiscFree h) : FrameStep n0 h h :=
  ⟨Nat.le_refl _, hwf, hdf, fun _ _ => Eq.refl _⟩

theorem FrameStep.alloc (n0 : Nat) (h : Heap) (o : HObj) (hn : n0 ≤ h.next)
    (hwf : heapWF h) (hdf : heapDiscFree h) (ho : hObjDiscFree o = true) :
    FrameStep n0 h (h.alloc o).2 :=
  ⟨by rw [alloc_next]; omega, alloc_WF h o hwf, alloc_discFree h o hwf hdf ho,
   fun i hi => look_alloc_ne h o i (by omega)⟩

theorem FrameStep.writeKey (n0 : Nat) (h : Heap) (i : Nat) (k : String)
    (v : HNode) (hi : n0 ≤ i) (hk : (k == "discriminator") = false)
    (hwf : heapWF h) (hdf : heapDiscFree h) :
    FrameStep n0 h (h.writeKey i k v) :=
  ⟨by rw [writeKey_next], writeKey_WF h i k v hwf,
   writeKey_discFree h i k v hk hdf,
   fun j hj => look_writeKey_ne h i k v j (by omega)⟩

end OpenapiInclude

namespace OpenapiInclude

end OpenapiInclude

namespace OpenapiInclude

end OpenapiInclude

namespace OpenapiInclude

end OpenapiInclude

namespace OpenapiInclude

end OpenapiInclude
